import Mathlib

/-!
# Verification of the Asterisk taskprocessor subsystem and the dsp threshold loader

This development gives a shallow embedding of the two source files of the
repository:

* `include/asterisk/taskprocessor.h` declares the taskprocessor API (named,
  reference-counted serial task queues with listener callbacks).  The
  implementation file `taskprocessor.c` is not part of the source tree, so the
  operational behaviour of the API is modelled from the specification
  (sections 3, 4.B, 4.C, 4.E, 4.F and 7 of the spec), faithful to its words.
* `main/dsp.c` contains `_dsp_init` and `ast_dsp_get_threshold_from_settings`,
  which are embedded directly from the C source.

The taskprocessor model is in two layers: a single-processor state machine
(queue + alive flag, operations `push` / `execute` emitting listener events),
and a registry machine (named processors with reference counts, operations
`get` / `create_with_listener` / `unreference`).  Traces of listener events are
made explicit so that the exactly-once lifecycle and FIFO properties can be
stated and proved.
-/

namespace Taskprocessor

/-- Modelled from the spec: a Task is "a wrapper around a task-handling
function pointer and a data pointer" (§3).  Handlers are opaque to the core;
the only processor-visible effect a handler can have is to re-push tasks onto
its own processor (reentrancy, §4.E), so a handler is modelled by the list of
tasks it pushes, in order, while it runs. -/
inductive Task where
  | mk (handler : Nat) (data : Nat) (spawns : List Task)

def Task.handler : Task → Nat
  | .mk h _ _ => h

def Task.data : Task → Nat
  | .mk _ d _ => d

def Task.spawns : Task → List Task
  | .mk _ _ s => s

/-- Error kinds surfaced by the core (spec §7). -/
inductive TpsErr where
  | notAlive
  | notFound
  | nameInUse
  | listenerInit
  deriving DecidableEq, Repr

/-- Modelled from the spec: the per-processor state visible to `push` and
`execute`: the FIFO task queue and the `alive` flag (§3, TaskProcessor
attributes `queue` and `alive`). -/
structure TpsState where
  queue : List Task
  alive : Bool

/-- Listener events, recorded in the order the listener callbacks fire
(spec §4.C), together with handler executions. -/
inductive Ev where
  | pushed (t : Task) (wasEmpty : Bool)
  | ran (t : Task)
  | emptied

/-- Modelled from the spec: `push(handler, data)` "Fails if the processor is
not alive.  Otherwise enqueues, computes `was_empty` from the pre-state, and
invokes `listener.task_pushed(was_empty)` synchronously" (§4.E); failure kind
is NotAlive (§7).  The emitted event list is the sequence of listener
callbacks fired before `push` returns. -/
def ast_taskprocessor_push (s : TpsState) (t : Task) :
    Except TpsErr (TpsState × List Ev) :=
  if s.alive then
    .ok ({ s with queue := s.queue ++ [t] }, [Ev.pushed t s.queue.isEmpty])
  else
    .error .notAlive

/-- Modelled from the spec: running a handler to completion.  The handler's
only processor-visible behaviour is the reentrant pushes it performs on its
own processor (§4.E Reentrancy); they are issued in order through
`ast_taskprocessor_push`. -/
def pushSpawns (s : TpsState) : List Task → TpsState × List Ev
  | [] => (s, [])
  | u :: us =>
    match ast_taskprocessor_push s u with
    | .ok (s1, evs1) =>
      let r := pushSpawns s1 us
      (r.1, evs1 ++ r.2)
    | .error _ => pushSpawns s us

/-- Modelled from the spec: `execute()` "Dequeues at most one task.  If none,
returns 0 without invoking the listener.  If one, runs the handler to
completion, then: if the queue is now empty, invokes `listener.emptied()` and
returns 0; otherwise returns 1" (§4.E). -/
def ast_taskprocessor_execute (s : TpsState) : TpsState × Nat × List Ev :=
  match s.queue with
  | [] => (s, 0, [])
  | t :: rest =>
    let r := pushSpawns { s with queue := rest } t.spawns
    if r.1.queue.isEmpty then
      (r.1, 0, Ev.ran t :: r.2 ++ [Ev.emptied])
    else
      (r.1, 1, Ev.ran t :: r.2)

/-- A client command at the level of a single processor: an external producer
pushing a task, or a consumer running one `execute` step. -/
inductive Cmd where
  | push (producer : Nat) (t : Task)
  | exec

def stepTps (s : TpsState) : Cmd → TpsState × List Ev
  | .push _ t =>
    match ast_taskprocessor_push s t with
    | .ok (s1, evs) => (s1, evs)
    | .error _ => (s, [])
  | .exec =>
    let r := ast_taskprocessor_execute s
    (r.1, r.2.2)

def runTps (s : TpsState) : List Cmd → TpsState × List Ev
  | [] => (s, [])
  | c :: cs =>
    let r1 := stepTps s c
    let r2 := runTps r1.1 cs
    (r2.1, r1.2 ++ r2.2)

/-- The sequence of tasks whose handlers were run, in trace order. -/
def ranTrace (evs : List Ev) : List Task :=
  evs.filterMap fun e =>
    match e with
    | Ev.ran t => some t
    | _ => none

/-- The sequence of tasks successfully enqueued (one `task_pushed` callback
each), in trace order. -/
def pushedTrace (evs : List Ev) : List Task :=
  evs.filterMap fun e =>
    match e with
    | Ev.pushed t _ => some t
    | _ => none

def isEmptiedEv : Ev → Bool
  | Ev.emptied => true
  | _ => false

/-! ### Basic lemmas about the single-processor operations -/

theorem push_alive (s : TpsState) (t : Task) (h : s.alive = true) :
    ast_taskprocessor_push s t =
      .ok ({ s with queue := s.queue ++ [t] }, [Ev.pushed t s.queue.isEmpty]) := by
  simp [ast_taskprocessor_push, h]

theorem push_dead (s : TpsState) (t : Task) (h : s.alive = false) :
    ast_taskprocessor_push s t = .error .notAlive := by
  simp [ast_taskprocessor_push, h]

theorem ranTrace_append (a b : List Ev) :
    ranTrace (a ++ b) = ranTrace a ++ ranTrace b := by
  simp [ranTrace]

theorem pushedTrace_append (a b : List Ev) :
    pushedTrace (a ++ b) = pushedTrace a ++ pushedTrace b := by
  simp [pushedTrace]

theorem ranTrace_nil : ranTrace [] = [] := rfl

theorem pushedTrace_nil : pushedTrace [] = [] := rfl

theorem ranTrace_cons_pushed (t : Task) (b : Bool) (l : List Ev) :
    ranTrace (Ev.pushed t b :: l) = ranTrace l := by
  simp [ranTrace, List.filterMap_cons]

theorem ranTrace_cons_ran (t : Task) (l : List Ev) :
    ranTrace (Ev.ran t :: l) = t :: ranTrace l := by
  simp [ranTrace, List.filterMap_cons]

theorem ranTrace_cons_emptied (l : List Ev) :
    ranTrace (Ev.emptied :: l) = ranTrace l := by
  simp [ranTrace, List.filterMap_cons]

theorem pushedTrace_cons_pushed (t : Task) (b : Bool) (l : List Ev) :
    pushedTrace (Ev.pushed t b :: l) = t :: pushedTrace l := by
  simp [pushedTrace, List.filterMap_cons]

theorem pushedTrace_cons_ran (t : Task) (l : List Ev) :
    pushedTrace (Ev.ran t :: l) = pushedTrace l := by
  simp [pushedTrace, List.filterMap_cons]

theorem pushedTrace_cons_emptied (l : List Ev) :
    pushedTrace (Ev.emptied :: l) = pushedTrace l := by
  simp [pushedTrace, List.filterMap_cons]

/-- The handler's reentrant pushes: they never run tasks, never fire
`emptied`, preserve the alive flag, append exactly the successfully pushed
tasks to the queue, and when the processor is alive every spawn is pushed. -/
theorem pushSpawns_spec (ts : List Task) (s : TpsState) :
    ranTrace (pushSpawns s ts).2 = [] ∧
    (pushSpawns s ts).2.filter isEmptiedEv = [] ∧
    (pushSpawns s ts).1.alive = s.alive ∧
    (pushSpawns s ts).1.queue = s.queue ++ pushedTrace (pushSpawns s ts).2 ∧
    (s.alive = true → pushedTrace (pushSpawns s ts).2 = ts) := by
  induction ts generalizing s with
  | nil => simp [pushSpawns, ranTrace, pushedTrace]
  | cons u us ih =>
    by_cases h : s.alive = true
    · have hp := push_alive s u h
      have key : pushSpawns s (u :: us) =
          ((pushSpawns { s with queue := s.queue ++ [u] } us).1,
            Ev.pushed u s.queue.isEmpty ::
              (pushSpawns { s with queue := s.queue ++ [u] } us).2) := by
        simp [pushSpawns, hp]
      obtain ⟨ih1, ih2, ih3, ih4, ih5⟩ := ih { s with queue := s.queue ++ [u] }
      rw [key]
      refine ⟨?_, ?_, ?_, ?_, ?_⟩
      · rw [ranTrace_cons_pushed]
        exact ih1
      · simpa [List.filter_cons, isEmptiedEv] using ih2
      · simpa using ih3
      · rw [pushedTrace_cons_pushed, ih4]
        simp
      · intro _
        rw [pushedTrace_cons_pushed, ih5 (by simpa using h)]
    · have hb : s.alive = false := by simpa using h
      have hp := push_dead s u hb
      have key : pushSpawns s (u :: us) = pushSpawns s us := by
        simp [pushSpawns, hp]
      obtain ⟨ih1, ih2, ih3, ih4, ih5⟩ := ih s
      rw [key]
      exact ⟨ih1, ih2, ih3, ih4, fun hc => absurd hc h⟩

/-- Core behaviour of one `execute` step on a non-empty queue: the head task
is dequeued and is the only task run, the new queue is the tail followed by
the tasks the handler pushed, the alive flag is untouched, the return code
and the `emptied` callback follow the post-queue emptiness, and when the
processor is alive the handler's pushes all land. -/
theorem execute_core (s : TpsState) (t : Task) (rest : List Task)
    (h : s.queue = t :: rest) :
    (ast_taskprocessor_execute s).1.alive = s.alive ∧
    ranTrace (ast_taskprocessor_execute s).2.2 = [t] ∧
    (ast_taskprocessor_execute s).1.queue =
      rest ++ pushedTrace (ast_taskprocessor_execute s).2.2 ∧
    (s.alive = true →
      pushedTrace (ast_taskprocessor_execute s).2.2 = t.spawns) ∧
    ((ast_taskprocessor_execute s).1.queue = [] →
      (ast_taskprocessor_execute s).2.1 = 0 ∧
      ((ast_taskprocessor_execute s).2.2.filter isEmptiedEv).length = 1 ∧
      (ast_taskprocessor_execute s).2.2.getLast? = some Ev.emptied) ∧
    ((ast_taskprocessor_execute s).1.queue ≠ [] →
      (ast_taskprocessor_execute s).2.1 = 1 ∧
      (ast_taskprocessor_execute s).2.2.filter isEmptiedEv = []) := by
  obtain ⟨sp1, sp2, sp3, sp4, sp5⟩ := pushSpawns_spec t.spawns { s with queue := rest }
  have hex : ast_taskprocessor_execute s =
      if (pushSpawns { s with queue := rest } t.spawns).1.queue.isEmpty then
        ((pushSpawns { s with queue := rest } t.spawns).1, 0,
          Ev.ran t :: (pushSpawns { s with queue := rest } t.spawns).2 ++ [Ev.emptied])
      else
        ((pushSpawns { s with queue := rest } t.spawns).1, 1,
          Ev.ran t :: (pushSpawns { s with queue := rest } t.spawns).2) := by
    simp only [ast_taskprocessor_execute, h]
  by_cases hq : (pushSpawns { s with queue := rest } t.spawns).1.queue.isEmpty = true
  · rw [hex, if_pos hq]
    dsimp only
    have hqe : (pushSpawns { s with queue := rest } t.spawns).1.queue = [] :=
      List.isEmpty_iff.mp hq
    refine ⟨sp3, ?_, ?_, ?_, ?_, ?_⟩
    · simp [ranTrace_append, ranTrace_cons_ran, ranTrace_cons_emptied,
        ranTrace_nil, sp1]
    · simp only [pushedTrace_append, pushedTrace_cons_ran,
        pushedTrace_cons_emptied, pushedTrace_nil, List.append_nil]
      simpa using sp4
    · intro ha
      simp only [pushedTrace_append, pushedTrace_cons_ran,
        pushedTrace_cons_emptied, pushedTrace_nil, List.append_nil]
      simpa using sp5 ha
    · intro _
      refine ⟨rfl, ?_, ?_⟩
      · simp [List.filter_cons, List.filter_append, sp2, isEmptiedEv]
      · exact List.getLast?_concat _
    · intro hne
      exact absurd hqe hne
  · rw [hex, if_neg hq]
    dsimp only
    have hqe : (pushSpawns { s with queue := rest } t.spawns).1.queue ≠ [] := by
      intro hc
      exact hq (List.isEmpty_iff.mpr hc)
    refine ⟨sp3, ?_, ?_, ?_, ?_, ?_⟩
    · simp [ranTrace_cons_ran, sp1]
    · simp only [pushedTrace_cons_ran]
      simpa using sp4
    · intro ha
      simp only [pushedTrace_cons_ran]
      simpa using sp5 ha
    · intro hc
      exact absurd hc hqe
    · intro _
      refine ⟨rfl, ?_⟩
      simp [List.filter_cons, sp2, isEmptiedEv]

/-! ### Claims C1 and C2: push and execute -/

/-- C1: `push(handler, data)` fails if and only if the processor is not
alive; when it succeeds, it appends exactly one task to the queue and
synchronously invokes `listener.task_pushed` exactly once, with `was_empty`
equal to whether the queue was empty immediately before the enqueue (the
event list of the call is exactly that one callback, fired before `push`
returns). -/
theorem claim_C1 (s : TpsState) (t : Task) :
    ((∃ e, ast_taskprocessor_push s t = .error e) ↔ s.alive = false) ∧
    (s.alive = true →
      ∃ s1, ast_taskprocessor_push s t = .ok (s1, [Ev.pushed t s.queue.isEmpty]) ∧
        s1.queue = s.queue ++ [t] ∧ s1.alive = true) := by
  constructor
  · constructor
    · rintro ⟨e, he⟩
      by_cases h : s.alive = true
      · rw [push_alive s t h] at he
        exact absurd he (by simp)
      · simpa using h
    · intro h
      exact ⟨.notAlive, push_dead s t h⟩
  · intro h
    refine ⟨{ s with queue := s.queue ++ [t] }, push_alive s t h, rfl, h⟩

theorem claim_C1_witness :
    (∃ e, ast_taskprocessor_push ⟨[], false⟩ (Task.mk 1 2 []) = .error e) ∧
    (∃ s1, ast_taskprocessor_push ⟨[], true⟩ (Task.mk 1 2 []) =
        .ok (s1, [Ev.pushed (Task.mk 1 2 []) true]) ∧
      s1.queue = [Task.mk 1 2 []] ∧ s1.alive = true) := by
  constructor
  · exact (claim_C1 ⟨[], false⟩ (Task.mk 1 2 [])).1.mpr rfl
  · simpa using (claim_C1 ⟨[], true⟩ (Task.mk 1 2 [])).2 rfl

/-- C2: `execute()` dequeues at most one task.  On an empty queue it returns
0 with no listener callback.  Otherwise it runs exactly the head task's
handler to completion; afterwards, if the queue is empty it fires `emptied`
exactly once (after the handler, as the last callback) and returns 0, and if
the queue is non-empty it returns 1 without firing `emptied`.  The post-queue
is the tail plus any tasks the handler itself pushed, so exactly one task was
dequeued. -/
theorem claim_C2 (s : TpsState) :
    (s.queue = [] → ast_taskprocessor_execute s = (s, 0, [])) ∧
    (∀ t rest, s.queue = t :: rest →
      ranTrace (ast_taskprocessor_execute s).2.2 = [t] ∧
      (ast_taskprocessor_execute s).1.queue =
        rest ++ pushedTrace (ast_taskprocessor_execute s).2.2 ∧
      ((ast_taskprocessor_execute s).1.queue = [] →
        (ast_taskprocessor_execute s).2.1 = 0 ∧
        ((ast_taskprocessor_execute s).2.2.filter isEmptiedEv).length = 1 ∧
        (ast_taskprocessor_execute s).2.2.getLast? = some Ev.emptied) ∧
      ((ast_taskprocessor_execute s).1.queue ≠ [] →
        (ast_taskprocessor_execute s).2.1 = 1 ∧
        (ast_taskprocessor_execute s).2.2.filter isEmptiedEv = [])) := by
  constructor
  · intro h
    simp [ast_taskprocessor_execute, h]
  · intro t rest h
    obtain ⟨_, c2, c3, _, c5, c6⟩ := execute_core s t rest h
    exact ⟨c2, c3, c5, c6⟩

theorem claim_C2_witness :
    ast_taskprocessor_execute ⟨[], true⟩ = (⟨[], true⟩, 0, []) ∧
    (ranTrace (ast_taskprocessor_execute ⟨[Task.mk 1 2 []], true⟩).2.2 =
        [Task.mk 1 2 []] ∧
      (ast_taskprocessor_execute ⟨[Task.mk 1 2 []], true⟩).2.1 = 0) := by
  constructor
  · exact (claim_C2 ⟨[], true⟩).1 rfl
  · obtain ⟨c1, c2, c3, _⟩ :=
      (claim_C2 ⟨[Task.mk 1 2 []], true⟩).2 (Task.mk 1 2 []) [] rfl
    refine ⟨c1, ?_⟩
    have hq : (ast_taskprocessor_execute ⟨[Task.mk 1 2 []], true⟩).1.queue = [] := by
      rw [c2]
      simp [ast_taskprocessor_execute, pushSpawns, pushedTrace, Task.spawns]
    exact (c3 hq).1

/-! ### Run-level FIFO invariant -/

/-- One client step on an alive processor keeps it alive, and the tasks run
so far plus the current queue always equal the tasks pushed so far (in
order). -/
theorem stepTps_spec (s : TpsState) (c : Cmd) (h : s.alive = true) :
    (stepTps s c).1.alive = true ∧
    ranTrace (stepTps s c).2 ++ (stepTps s c).1.queue =
      s.queue ++ pushedTrace (stepTps s c).2 := by
  cases c with
  | push p t =>
    have key : stepTps s (Cmd.push p t) =
        ({ s with queue := s.queue ++ [t] }, [Ev.pushed t s.queue.isEmpty]) := by
      simp [stepTps, push_alive s t h]
    rw [key]
    exact ⟨h, by simp [ranTrace, pushedTrace, List.filterMap_cons]⟩
  | exec =>
    simp only [stepTps]
    cases hq : s.queue with
    | nil =>
      have hx : ast_taskprocessor_execute s = (s, 0, []) := by
        simp [ast_taskprocessor_execute, hq]
      simp [hx, ranTrace_nil, pushedTrace_nil, h, hq]
    | cons t rest =>
      obtain ⟨e1, e2, e3, _, _, _⟩ := execute_core s t rest hq
      refine ⟨by rw [e1]; exact h, ?_⟩
      rw [e2, e3]
      simp

/-- The FIFO run invariant: starting alive, after any command sequence the
processor is still alive and the run trace plus the residual queue equals the
initial queue plus the push trace. -/
theorem runTps_fifo (cs : List Cmd) (s : TpsState) (h : s.alive = true) :
    (runTps s cs).1.alive = true ∧
    ranTrace (runTps s cs).2 ++ (runTps s cs).1.queue =
      s.queue ++ pushedTrace (runTps s cs).2 := by
  induction cs generalizing s with
  | nil => exact ⟨h, by simp [runTps, ranTrace_nil, pushedTrace_nil]⟩
  | cons c cs ih =>
    obtain ⟨h1, h2⟩ := stepTps_spec s c h
    obtain ⟨ih1, ih2⟩ := ih (stepTps s c).1 h1
    refine ⟨by simpa [runTps] using ih1, ?_⟩
    simp only [runTps]
    rw [ranTrace_append, pushedTrace_append, List.append_assoc, ih2,
      ← List.append_assoc, h2, List.append_assoc]

/-! ### Claims C4 and C8: FIFO order and reentrant push -/

/-- C4: starting from an alive processor with an empty queue, the sequence of
executed handlers is a prefix of the sequence of pushed tasks (strict FIFO),
and for any predicate singling out one producer's tasks, that producer's
executed tasks form a prefix of that producer's pushed tasks, i.e. each
producer's own tasks execute in its push order. -/
theorem claim_C4 (cs : List Cmd) (s : TpsState) (h : s.alive = true)
    (hq : s.queue = []) (p : Task → Bool) :
    ranTrace (runTps s cs).2 <+: pushedTrace (runTps s cs).2 ∧
    (ranTrace (runTps s cs).2).filter p <+: (pushedTrace (runTps s cs).2).filter p := by
  obtain ⟨_, h2⟩ := runTps_fifo cs s h
  rw [hq, List.nil_append] at h2
  have hpre : ranTrace (runTps s cs).2 <+: pushedTrace (runTps s cs).2 :=
    ⟨(runTps s cs).1.queue, h2⟩
  refine ⟨hpre, ?_⟩
  obtain ⟨r, hr⟩ := hpre
  exact ⟨r.filter p, by rw [← List.filter_append, hr]⟩

theorem claim_C4_witness :
    ranTrace (runTps ⟨[], true⟩
        [Cmd.push 0 (Task.mk 1 0 []), Cmd.push 0 (Task.mk 2 0 []), Cmd.exec]).2 <+:
      pushedTrace (runTps ⟨[], true⟩
        [Cmd.push 0 (Task.mk 1 0 []), Cmd.push 0 (Task.mk 2 0 []), Cmd.exec]).2 ∧
    (ranTrace (runTps ⟨[], true⟩
        [Cmd.push 0 (Task.mk 1 0 []), Cmd.push 0 (Task.mk 2 0 []), Cmd.exec]).2).filter
          (fun _ => true) <+:
      (pushedTrace (runTps ⟨[], true⟩
        [Cmd.push 0 (Task.mk 1 0 []), Cmd.push 0 (Task.mk 2 0 []), Cmd.exec]).2).filter
          (fun _ => true) :=
  claim_C4 [Cmd.push 0 (Task.mk 1 0 []), Cmd.push 0 (Task.mk 2 0 []), Cmd.exec]
    ⟨[], true⟩ rfl rfl (fun _ => true)

/-- C8: a handler running inside `execute` that pushes a task `u` on its own
processor succeeds (the `task_pushed` callback for `u` fires during the
step), `u` is queued behind every task already present, only the current
handler runs during this step, and in any continuation the executed tasks
follow the queue order, so `u` runs only after the current handler has
returned. -/
theorem claim_C8 (s : TpsState) (t : Task) (rest : List Task) (u : Task)
    (halive : s.alive = true) (hq : s.queue = t :: rest) (hu : u ∈ t.spawns)
    (cs : List Cmd) :
    (∃ b, Ev.pushed u b ∈ (ast_taskprocessor_execute s).2.2) ∧
    ranTrace (ast_taskprocessor_execute s).2.2 = [t] ∧
    (ast_taskprocessor_execute s).1.queue = rest ++ t.spawns ∧
    u ∈ (ast_taskprocessor_execute s).1.queue ∧
    ranTrace (runTps (ast_taskprocessor_execute s).1 cs).2 <+:
      (rest ++ t.spawns) ++
        pushedTrace (runTps (ast_taskprocessor_execute s).1 cs).2 := by
  obtain ⟨e1, e2, e3, e4, _, _⟩ := execute_core s t rest hq
  have hpq : pushedTrace (ast_taskprocessor_execute s).2.2 = t.spawns := e4 halive
  have hqeq : (ast_taskprocessor_execute s).1.queue = rest ++ t.spawns := by
    rw [e3, hpq]
  refine ⟨?_, e2, hqeq, ?_, ?_⟩
  · have hmem : u ∈ pushedTrace (ast_taskprocessor_execute s).2.2 := by
      rw [hpq]
      exact hu
    obtain ⟨e, he, hfe⟩ := List.mem_filterMap.mp hmem
    cases e with
    | pushed t' b =>
      simp only [Option.some.injEq] at hfe
      subst hfe
      exact ⟨b, he⟩
    | ran t' => simp at hfe
    | emptied => simp at hfe
  · rw [hqeq]
    exact List.mem_append_right rest hu
  · have ha1 : (ast_taskprocessor_execute s).1.alive = true := by
      rw [e1]
      exact halive
    obtain ⟨_, hf⟩ := runTps_fifo cs (ast_taskprocessor_execute s).1 ha1
    rw [hqeq] at hf
    exact ⟨(runTps (ast_taskprocessor_execute s).1 cs).1.queue, hf⟩

theorem claim_C8_witness :
    (∃ b, Ev.pushed (Task.mk 2 0 []) b ∈
      (ast_taskprocessor_execute
        ⟨[Task.mk 1 0 [Task.mk 2 0 []]], true⟩).2.2) ∧
    ranTrace (ast_taskprocessor_execute
        ⟨[Task.mk 1 0 [Task.mk 2 0 []]], true⟩).2.2 =
      [Task.mk 1 0 [Task.mk 2 0 []]] ∧
    (ast_taskprocessor_execute
        ⟨[Task.mk 1 0 [Task.mk 2 0 []]], true⟩).1.queue =
      [] ++ (Task.mk 1 0 [Task.mk 2 0 []]).spawns ∧
    Task.mk 2 0 [] ∈ (ast_taskprocessor_execute
        ⟨[Task.mk 1 0 [Task.mk 2 0 []]], true⟩).1.queue ∧
    ranTrace (runTps (ast_taskprocessor_execute
        ⟨[Task.mk 1 0 [Task.mk 2 0 []]], true⟩).1 [Cmd.exec]).2 <+:
      ([] ++ (Task.mk 1 0 [Task.mk 2 0 []]).spawns) ++
        pushedTrace (runTps (ast_taskprocessor_execute
          ⟨[Task.mk 1 0 [Task.mk 2 0 []]], true⟩).1 [Cmd.exec]).2 :=
  claim_C8 ⟨[Task.mk 1 0 [Task.mk 2 0 []]], true⟩
    (Task.mk 1 0 [Task.mk 2 0 []]) [] (Task.mk 2 0 []) rfl rfl
    (List.mem_singleton.mpr rfl) [Cmd.exec]

/-! ### The registry of named taskprocessors -/

/-- Modelled from the spec: a listener carries an opaque callback vtable
(identified here by a number), and a non-owning back-reference `tps` to the
processor it is bound to, "set by the processor when bound" (§3). -/
structure Listener where
  lid : Nat
  tps : Option Nat
  deriving DecidableEq, Repr

/-- The identifier of the default listener's callback vtable, used by `get`
when it creates a processor without an explicit listener. -/
def DEFAULT_LISTENER_ID : Nat := 0

def defaultListener : Listener := ⟨DEFAULT_LISTENER_ID, none⟩

/-- Modelled from the spec: a registry entry — a named, reference-counted
processor binding a task queue (with its alive flag) to a bound listener
(§3 TaskProcessor attributes).  The `pid` gives each created processor a
distinct identity, never reused, so that lifecycle events can be attributed
to one processor across its whole lifetime. -/
structure Proc where
  pid : Nat
  name : String
  st : TpsState
  refCount : Nat
  listener : Listener

/-- Modelled from the spec: the process-wide Registry, "a mapping from name
to TaskProcessor with at most one entry per name" (§3); `nextId` is the
identity for the next processor created. -/
structure Registry where
  procs : List Proc
  nextId : Nat

def initRegistry : Registry := ⟨[], 0⟩

def findById (r : Registry) (pid : Nat) : Option Proc :=
  r.procs.find? fun p => p.pid == pid

def findByName (r : Registry) (n : String) : Option Proc :=
  r.procs.find? fun p => p.name == n

/-- Increment the reference count of the (first) entry with the given name. -/
def bumpRef : List Proc → String → List Proc
  | [], _ => []
  | p :: ps, n =>
    if p.name == n then { p with refCount := p.refCount + 1 } :: ps
    else p :: bumpRef ps n

/-- Decrement the reference count of the (first) entry with the given id. -/
def decRef : List Proc → Nat → List Proc
  | [], _ => []
  | p :: ps, pid =>
    if p.pid == pid then { p with refCount := p.refCount - 1 } :: ps
    else p :: decRef ps pid

def removeById : List Proc → Nat → List Proc
  | [], _ => []
  | p :: ps, pid =>
    if p.pid == pid then removeById ps pid else p :: removeById ps pid

/-- Replace the taskprocessor state of the (first) entry with the given id. -/
def updateProcSt : List Proc → Nat → TpsState → List Proc
  | [], _, _ => []
  | p :: ps, pid, st =>
    if p.pid == pid then { p with st := st } :: ps
    else p :: updateProcSt ps pid st

/-- Registry-level events: the listener lifecycle callbacks (`alloc`,
`shutdown`, `destroy`) and the per-processor queue events, each tagged with
the identity of the processor whose listener fires. -/
inductive REv where
  | allocEv (pid : Nat)
  | tpsEv (pid : Nat) (e : Ev)
  | shutdownEv (pid : Nat)
  | destroyEv (pid : Nat)

def evPid : REv → Nat
  | .allocEv pid => pid
  | .tpsEv pid _ => pid
  | .shutdownEv pid => pid
  | .destroyEv pid => pid

/-- A freshly created processor: empty queue, alive, one reference, listener
bound with its `tps` back-reference set to the new processor (§4.F). -/
def mkProc (pid : Nat) (n : String) (l : Listener) : Proc :=
  ⟨pid, n, ⟨[], true⟩, 1, { l with tps := some pid }⟩

/-- Modelled from the spec: `get(name, opts)` "returns an existing processor
by name (incrementing its reference count) or, if absent and `opts` does not
include ref-if-exists, creates a new processor with the default listener,
inserts it, and returns a new reference" (§4.F); with ref-if-exists and no
entry it returns NotFound/NULL (§7).  The listener's `alloc` callback fires
during creation (§4.C). -/
def ast_taskprocessor_get (r : Registry) (n : String) (refIfExists : Bool) :
    Registry × Option Nat × List REv :=
  match findByName r n with
  | some p => (⟨bumpRef r.procs n, r.nextId⟩, some p.pid, [])
  | none =>
    if refIfExists then (r, none, [])
    else
      (⟨r.procs ++ [mkProc r.nextId n defaultListener], r.nextId + 1⟩,
        some r.nextId, [REv.allocEv r.nextId])

/-- Modelled from the spec: `create_with_listener(name, listener)` "creates a
processor with the supplied listener, inserts it.  Fails if name already
exists.  On success the listener's tps is set and the listener is bound"
(§4.F); the duplicate-name failure is NameInUse (§7). -/
def ast_taskprocessor_create_with_listener (r : Registry) (n : String)
    (l : Listener) : Registry × Except TpsErr Nat × List REv :=
  match findByName r n with
  | some _ => (r, .error .nameInUse, [])
  | none =>
    (⟨r.procs ++ [mkProc r.nextId n l], r.nextId + 1⟩,
      .ok r.nextId, [REv.allocEv r.nextId])

/-- Modelled from the spec: `unreference(tps)` decrements the count; "on
transition to zero: 1. atomically set alive=false and remove the entry from
the Registry; 2. invoke listener.shutdown(); 3. discard any residual queued
tasks without invoking handlers; 4. invoke listener.destroy and free the
processor" (§4.F).  Per the header it always returns NULL. -/
def ast_taskprocessor_unreference (r : Registry) (pid : Nat) :
    Registry × Option Nat × List REv :=
  match findById r pid with
  | none => (r, none, [])
  | some p =>
    if p.refCount ≤ 1 then
      (⟨removeById r.procs pid, r.nextId⟩, none,
        [REv.shutdownEv pid, REv.destroyEv pid])
    else
      (⟨decRef r.procs pid, r.nextId⟩, none, [])

/-- A push addressed through the registry: a no-op on an unknown identity,
otherwise the single-processor `push` on that entry's state. -/
def registryPush (r : Registry) (pid : Nat) (t : Task) : Registry × List REv :=
  match findById r pid with
  | none => (r, [])
  | some p =>
    match ast_taskprocessor_push p.st t with
    | .ok (st1, evs) =>
      (⟨updateProcSt r.procs pid st1, r.nextId⟩, evs.map (REv.tpsEv pid))
    | .error _ => (r, [])

/-- An execute step addressed through the registry. -/
def registryExec (r : Registry) (pid : Nat) : Registry × List REv :=
  match findById r pid with
  | none => (r, [])
  | some p =>
    let res := ast_taskprocessor_execute p.st
    (⟨updateProcSt r.procs pid res.1, r.nextId⟩, res.2.2.map (REv.tpsEv pid))

/-- A client command against the registry. -/
inductive RCmd where
  | get (n : String) (refIfExists : Bool)
  | createWL (n : String) (l : Listener)
  | unref (pid : Nat)
  | push (pid : Nat) (t : Task)
  | exec (pid : Nat)

def stepReg (r : Registry) : RCmd → Registry × List REv
  | .get n rie =>
    let x := ast_taskprocessor_get r n rie
    (x.1, x.2.2)
  | .createWL n l =>
    let x := ast_taskprocessor_create_with_listener r n l
    (x.1, x.2.2)
  | .unref pid =>
    let x := ast_taskprocessor_unreference r pid
    (x.1, x.2.2)
  | .push pid t => registryPush r pid t
  | .exec pid => registryExec r pid

def runReg (r : Registry) : List RCmd → Registry × List REv
  | [] => (r, [])
  | c :: cs =>
    let r1 := stepReg r c
    let r2 := runReg r1.1 cs
    (r2.1, r1.2 ++ r2.2)

/-- Whether the registry holds an alive processor with the given identity. -/
def aliveInReg (r : Registry) (pid : Nat) : Bool :=
  r.procs.any fun p => p.pid == pid && p.st.alive

/-- Whether a lifecycle callback (`alloc`, `shutdown` or `destroy`) of the
processor with the given identity fires in an event. -/
def isLifeEv (pid : Nat) : REv → Bool
  | .allocEv q => q == pid
  | .shutdownEv q => q == pid
  | .destroyEv q => q == pid
  | .tpsEv _ _ => false

/-- The lifecycle subtrace of one processor. -/
def lifeTrace (pid : Nat) (evs : List REv) : List REv :=
  evs.filter (isLifeEv pid)

/-- Registry well-formedness: every entry's identity is below `nextId` and
every entry is alive. -/
def RegWF (r : Registry) : Prop :=
  ∀ p ∈ r.procs, p.pid < r.nextId ∧ p.st.alive = true

/-! ### Registry lemmas -/

theorem find?_append_none {α : Type} (ps qs : List α) (f : α → Bool)
    (h : ps.find? f = none) : (ps ++ qs).find? f = qs.find? f := by
  induction ps with
  | nil => rfl
  | cons q ps ih =>
    cases hq : f q with
    | true => simp [List.find?_cons, hq] at h
    | false =>
      simp only [List.find?_cons, hq] at h
      simpa [List.find?_cons, hq] using ih h

theorem find?_bumpRef (ps : List Proc) (n : String) (p : Proc)
    (h : ps.find? (fun q => q.name == n) = some p) :
    (bumpRef ps n).find? (fun q => q.name == n) =
      some { p with refCount := p.refCount + 1 } := by
  induction ps with
  | nil => simp at h
  | cons q qs ih =>
    cases hq : q.name == n with
    | true =>
      simp only [List.find?_cons, hq] at h
      obtain rfl : q = p := by simpa using h
      simp [bumpRef, hq, List.find?_cons]
    | false =>
      simp only [List.find?_cons, hq] at h
      simpa [bumpRef, hq, List.find?_cons] using ih h

theorem bumpRef_length (ps : List Proc) (n : String) :
    (bumpRef ps n).length = ps.length := by
  induction ps with
  | nil => rfl
  | cons q qs ih =>
    by_cases hq : (q.name == n) = true
    · simp [bumpRef, hq]
    · simp only [bumpRef, if_neg hq]
      simp [ih]

/-! ### Claims C6, C7 and C9: get, create_with_listener, unreference -/

/-- C6: `get(name, opts)` returns the existing entry for `name` with its
reference count incremented when one exists (no listener event fires and the
registry keeps the same number of entries); when none exists it returns
NotFound and leaves the registry untouched if ref-if-exists was passed, and
otherwise creates, inserts and returns a new processor carrying the default
listener, an empty alive queue and one reference. -/
theorem claim_C6 (r : Registry) (n : String) (rie : Bool) :
    (∀ p, findByName r n = some p →
      (ast_taskprocessor_get r n rie).2.1 = some p.pid ∧
      findByName (ast_taskprocessor_get r n rie).1 n =
        some { p with refCount := p.refCount + 1 } ∧
      (ast_taskprocessor_get r n rie).1.procs.length = r.procs.length ∧
      (ast_taskprocessor_get r n rie).2.2 = []) ∧
    (findByName r n = none → rie = true →
      ast_taskprocessor_get r n rie = (r, none, [])) ∧
    (findByName r n = none → rie = false →
      (ast_taskprocessor_get r n rie).2.1 = some r.nextId ∧
      findByName (ast_taskprocessor_get r n rie).1 n =
        some (mkProc r.nextId n defaultListener) ∧
      (mkProc r.nextId n defaultListener).listener =
        ⟨DEFAULT_LISTENER_ID, some r.nextId⟩ ∧
      (mkProc r.nextId n defaultListener).st = ⟨[], true⟩ ∧
      (mkProc r.nextId n defaultListener).refCount = 1 ∧
      (ast_taskprocessor_get r n rie).1.procs.length = r.procs.length + 1) := by
  refine ⟨?_, ?_, ?_⟩
  · intro p hp
    have hg : ast_taskprocessor_get r n rie =
        (⟨bumpRef r.procs n, r.nextId⟩, some p.pid, []) := by
      simp only [ast_taskprocessor_get, hp]
    rw [hg]
    exact ⟨rfl, find?_bumpRef r.procs n p hp, bumpRef_length r.procs n, rfl⟩
  · intro hnone hrie
    simp only [ast_taskprocessor_get, hnone, hrie, if_true]
  · intro hnone hrie
    have hg : ast_taskprocessor_get r n rie =
        (⟨r.procs ++ [mkProc r.nextId n defaultListener], r.nextId + 1⟩,
          some r.nextId, [REv.allocEv r.nextId]) := by
      simp [ast_taskprocessor_get, hnone, hrie]
    rw [hg]
    refine ⟨rfl, ?_, rfl, rfl, rfl, by simp⟩
    show ((r.procs ++ [mkProc r.nextId n defaultListener]).find? fun q => q.name == n) = _
    rw [find?_append_none r.procs _ _ hnone]
    simp [List.find?_cons, mkProc]

theorem claim_C6_witness :
    (ast_taskprocessor_get initRegistry "A" true = (initRegistry, none, [])) ∧
    ((ast_taskprocessor_get initRegistry "A" false).2.1 = some 0 ∧
      findByName (ast_taskprocessor_get initRegistry "A" false).1 "A" =
        some (mkProc 0 "A" defaultListener)) := by
  refine ⟨(claim_C6 initRegistry "A" true).2.1 rfl rfl, ?_⟩
  obtain ⟨h1, h2, _⟩ := (claim_C6 initRegistry "A" false).2.2 rfl rfl
  exact ⟨h1, h2⟩

/-- C7: `create_with_listener(name, listener)` fails with NameInUse whenever
an entry for `name` exists, leaving the registry (and so the existing
processor) entirely unchanged; on success the new processor is inserted and
its bound listener's `tps` back-reference is set to the new processor. -/
theorem claim_C7 (r : Registry) (n : String) (l : Listener) :
    ((∃ p, findByName r n = some p) →
      ast_taskprocessor_create_with_listener r n l =
        (r, .error .nameInUse, [])) ∧
    (findByName r n = none →
      (ast_taskprocessor_create_with_listener r n l).2.1 = .ok r.nextId ∧
      findByName (ast_taskprocessor_create_with_listener r n l).1 n =
        some (mkProc r.nextId n l) ∧
      (mkProc r.nextId n l).listener = { l with tps := some r.nextId } ∧
      (ast_taskprocessor_create_with_listener r n l).1.procs.length =
        r.procs.length + 1) := by
  constructor
  · rintro ⟨p, hp⟩
    simp only [ast_taskprocessor_create_with_listener, hp]
  · intro hnone
    have hg : ast_taskprocessor_create_with_listener r n l =
        (⟨r.procs ++ [mkProc r.nextId n l], r.nextId + 1⟩,
          .ok r.nextId, [REv.allocEv r.nextId]) := by
      simp only [ast_taskprocessor_create_with_listener, hnone]
    rw [hg]
    refine ⟨rfl, ?_, rfl, by simp⟩
    show ((r.procs ++ [mkProc r.nextId n l]).find? fun q => q.name == n) = _
    rw [find?_append_none r.procs _ _ hnone]
    simp [List.find?_cons, mkProc]

theorem claim_C7_witness :
    (ast_taskprocessor_create_with_listener
        ⟨[mkProc 0 "E" ⟨7, none⟩], 1⟩ "E" ⟨7, none⟩ =
      (⟨[mkProc 0 "E" ⟨7, none⟩], 1⟩, .error .nameInUse, [])) ∧
    ((ast_taskprocessor_create_with_listener initRegistry "E" ⟨7, none⟩).2.1 =
        .ok 0 ∧
      (mkProc 0 "E" (⟨7, none⟩ : Listener)).listener = ⟨7, some 0⟩) := by
  constructor
  · exact (claim_C7 ⟨[mkProc 0 "E" ⟨7, none⟩], 1⟩ "E" ⟨7, none⟩).1
      ⟨mkProc 0 "E" ⟨7, none⟩, rfl⟩
  · obtain ⟨h1, _, h3, _⟩ := (claim_C7 initRegistry "E" ⟨7, none⟩).2 rfl
    exact ⟨h1, h3⟩

/-- C9: `unreference` returns NULL for every input — whether the identity is
unknown, the count is merely decremented, or the processor is destroyed — so
callers may always clear their handle with the returned value. -/
theorem claim_C9 (r : Registry) (pid : Nat) :
    (ast_taskprocessor_unreference r pid).2.1 = none := by
  unfold ast_taskprocessor_unreference
  cases h : findById r pid with
  | none => rfl
  | some p =>
    dsimp only
    split <;> rfl

/-! ### Shape lemmas for the registry updaters -/

theorem mem_bumpRef {q : Proc} {ps : List Proc} {n : String}
    (h : q ∈ bumpRef ps n) : ∃ p ∈ ps, q.pid = p.pid ∧ q.st = p.st := by
  induction ps with
  | nil => simp [bumpRef] at h
  | cons p ps ih =>
    by_cases hp : (p.name == n) = true
    · simp only [bumpRef, if_pos hp] at h
      rcases List.mem_cons.mp h with rfl | h
      · exact ⟨p, List.mem_cons_self p ps, rfl, rfl⟩
      · exact ⟨q, List.mem_cons_of_mem p h, rfl, rfl⟩
    · simp only [bumpRef, if_neg hp] at h
      rcases List.mem_cons.mp h with rfl | h
      · exact ⟨q, List.mem_cons_self q ps, rfl, rfl⟩
      · obtain ⟨p1, hp1, h1, h2⟩ := ih h
        exact ⟨p1, List.mem_cons_of_mem p hp1, h1, h2⟩

theorem bumpRef_any_pid (ps : List Proc) (n : String) (pid : Nat) :
    ((bumpRef ps n).any fun p => p.pid == pid) =
      (ps.any fun p => p.pid == pid) := by
  induction ps with
  | nil => rfl
  | cons p ps ih =>
    by_cases hp : (p.name == n) = true
    · simp [bumpRef, hp, List.any_cons]
    · simp [bumpRef, hp, List.any_cons, ih]

theorem mem_decRef {q : Proc} {ps : List Proc} {qid : Nat}
    (h : q ∈ decRef ps qid) : ∃ p ∈ ps, q.pid = p.pid ∧ q.st = p.st := by
  induction ps with
  | nil => simp [decRef] at h
  | cons p ps ih =>
    by_cases hp : (p.pid == qid) = true
    · simp only [decRef, if_pos hp] at h
      rcases List.mem_cons.mp h with rfl | h
      · exact ⟨p, List.mem_cons_self p ps, rfl, rfl⟩
      · exact ⟨q, List.mem_cons_of_mem p h, rfl, rfl⟩
    · simp only [decRef, if_neg hp] at h
      rcases List.mem_cons.mp h with rfl | h
      · exact ⟨q, List.mem_cons_self q ps, rfl, rfl⟩
      · obtain ⟨p1, hp1, h1, h2⟩ := ih h
        exact ⟨p1, List.mem_cons_of_mem p hp1, h1, h2⟩

theorem decRef_any_pid (ps : List Proc) (qid pid : Nat) :
    ((decRef ps qid).any fun p => p.pid == pid) =
      (ps.any fun p => p.pid == pid) := by
  induction ps with
  | nil => rfl
  | cons p ps ih =>
    by_cases hp : (p.pid == qid) = true
    · simp [decRef, hp, List.any_cons]
    · simp [decRef, hp, List.any_cons, ih]

theorem mem_updateProcSt {q : Proc} {ps : List Proc} {qid : Nat}
    {st : TpsState} (h : q ∈ updateProcSt ps qid st) :
    ∃ p ∈ ps, q.pid = p.pid ∧ (q.st = p.st ∨ q.st = st) := by
  induction ps with
  | nil => simp [updateProcSt] at h
  | cons p ps ih =>
    by_cases hp : (p.pid == qid) = true
    · simp only [updateProcSt, if_pos hp] at h
      rcases List.mem_cons.mp h with rfl | h
      · exact ⟨p, List.mem_cons_self p ps, rfl, Or.inr rfl⟩
      · exact ⟨q, List.mem_cons_of_mem p h, rfl, Or.inl rfl⟩
    · simp only [updateProcSt, if_neg hp] at h
      rcases List.mem_cons.mp h with rfl | h
      · exact ⟨q, List.mem_cons_self q ps, rfl, Or.inl rfl⟩
      · obtain ⟨p1, hp1, h1, h2⟩ := ih h
        exact ⟨p1, List.mem_cons_of_mem p hp1, h1, h2⟩

theorem updateProcSt_any_pid (ps : List Proc) (qid pid : Nat) (st : TpsState) :
    ((updateProcSt ps qid st).any fun p => p.pid == pid) =
      (ps.any fun p => p.pid == pid) := by
  induction ps with
  | nil => rfl
  | cons p ps ih =>
    by_cases hp : (p.pid == qid) = true
    · simp [updateProcSt, hp, List.any_cons]
    · simp [updateProcSt, hp, List.any_cons, ih]

theorem mem_removeById {q : Proc} {ps : List Proc} {qid : Nat}
    (h : q ∈ removeById ps qid) : q ∈ ps ∧ q.pid ≠ qid := by
  induction ps with
  | nil => simp [removeById] at h
  | cons p ps ih =>
    by_cases hp : (p.pid == qid) = true
    · simp only [removeById, if_pos hp] at h
      obtain ⟨h1, h2⟩ := ih h
      exact ⟨List.mem_cons_of_mem p h1, h2⟩
    · simp only [removeById, if_neg hp] at h
      rcases List.mem_cons.mp h with rfl | h
      · exact ⟨List.mem_cons_self q ps, by simpa using hp⟩
      · obtain ⟨h1, h2⟩ := ih h
        exact ⟨List.mem_cons_of_mem p h1, h2⟩

theorem removeById_self (ps : List Proc) (qid : Nat) :
    ((removeById ps qid).any fun p => p.pid == qid) = false := by
  induction ps with
  | nil => rfl
  | cons p ps ih =>
    by_cases hp : (p.pid == qid) = true
    · simpa [removeById, hp] using ih
    · simp [removeById, hp, List.any_cons, ih]

theorem removeById_any_pid (ps : List Proc) (qid pid : Nat) (hne : pid ≠ qid) :
    ((removeById ps qid).any fun p => p.pid == pid) =
      (ps.any fun p => p.pid == pid) := by
  induction ps with
  | nil => rfl
  | cons p ps ih =>
    by_cases hp : (p.pid == qid) = true
    · have hq : p.pid = qid := by simpa using hp
      have : (p.pid == pid) = false := by
        simp [hq]
        exact fun hc => hne hc.symm
      simp [removeById, hp, List.any_cons, this, ih]
    · simp [removeById, hp, List.any_cons, ih]

theorem push_ok_inv {s : TpsState} {t : Task} {s1 : TpsState} {evs : List Ev}
    (h : ast_taskprocessor_push s t = .ok (s1, evs)) :
    s.alive = true ∧ s1.alive = true := by
  by_cases ha : s.alive = true
  · rw [push_alive s t ha] at h
    simp only [Except.ok.injEq, Prod.mk.injEq] at h
    refine ⟨ha, ?_⟩
    rw [← h.1]
    exact ha
  · rw [push_dead s t (by simpa using ha)] at h
    cases h

theorem execute_alive (s : TpsState) :
    (ast_taskprocessor_execute s).1.alive = s.alive := by
  cases hq : s.queue with
  | nil => simp [ast_taskprocessor_execute, hq]
  | cons t rest => exact (execute_core s t rest hq).1

/-! ### The lifecycle invariant -/

/-- The lifecycle events a processor identity has emitted so far, read off
the registry state: none before it is created, `alloc` alone while it is
registered, and the full `alloc`/`shutdown`/`destroy` sequence once it has
been destroyed (identities are never reused). -/
def lifeStatus (r : Registry) (pid : Nat) : List REv :=
  if pid < r.nextId then
    if r.procs.any fun p => p.pid == pid then [REv.allocEv pid]
    else [REv.allocEv pid, REv.shutdownEv pid, REv.destroyEv pid]
  else []

theorem lifeTrace_append (pid : Nat) (a b : List REv) :
    lifeTrace pid (a ++ b) = lifeTrace pid a ++ lifeTrace pid b := by
  simp [lifeTrace]

theorem lifeTrace_nil (pid : Nat) : lifeTrace pid [] = [] := rfl

theorem lifeTrace_tpsEv (pid qid : Nat) (evs : List Ev) :
    lifeTrace pid (evs.map (REv.tpsEv qid)) = [] := by
  induction evs with
  | nil => rfl
  | cons e es ih =>
    simp only [lifeTrace, isLifeEv, List.filter_cons, List.map_cons] at ih ⊢
    exact ih

/-- Creation (shared by `get` and `create_with_listener`): inserting a fresh
processor under the next identity extends every lifecycle trace exactly by
the `alloc` callback it fires. -/
theorem lifeStatus_create (r : Registry) (l : Listener) (n : String)
    (pid : Nat) :
    lifeStatus ⟨r.procs ++ [mkProc r.nextId n l], r.nextId + 1⟩ pid =
      lifeStatus r pid ++ lifeTrace pid [REv.allocEv r.nextId] := by
  by_cases hpid : pid = r.nextId
  · subst hpid
    have hlt : ¬ r.nextId < r.nextId := lt_irrefl r.nextId
    have hany : ((r.procs ++ [mkProc r.nextId n l]).any
        fun p => p.pid == r.nextId) = true := by
      simp [List.any_append, mkProc]
    simp [lifeStatus, hlt, hany, lifeTrace, isLifeEv, List.filter_cons,
      Nat.lt_succ_self]
  · have hbeq : (r.nextId == pid) = false := by
      simp
      exact fun hc => hpid hc.symm
    have htr : lifeTrace pid [REv.allocEv r.nextId] = [] := by
      simp [lifeTrace, isLifeEv, List.filter_cons, hbeq]
    rw [htr, List.append_nil]
    have hany : ((r.procs ++ [mkProc r.nextId n l]).any fun p => p.pid == pid) =
        (r.procs.any fun p => p.pid == pid) := by
      simp [List.any_append, mkProc, hbeq]
    by_cases hlt : pid < r.nextId
    · have hlt1 : pid < r.nextId + 1 := Nat.lt_succ_of_lt hlt
      simp [lifeStatus, hlt, hlt1, hany]
    · have hlt1 : ¬ pid < r.nextId + 1 := by
        intro hc
        rcases Nat.lt_succ_iff_lt_or_eq.mp hc with hc | hc
        · exact hlt hc
        · exact hpid hc
      simp [lifeStatus, hlt, hlt1]

/-- Final unreference: removing a registered identity and firing `shutdown`
then `destroy` extends exactly that identity's lifecycle trace by those two
callbacks. -/
theorem lifeStatus_unref_final (r : Registry) (qid : Nat) (p : Proc)
    (hwf : RegWF r) (hmem : p ∈ r.procs) (hqid : p.pid = qid) (pid : Nat) :
    lifeStatus ⟨removeById r.procs qid, r.nextId⟩ pid =
      lifeStatus r pid ++
        lifeTrace pid [REv.shutdownEv qid, REv.destroyEv qid] := by
  by_cases hpid : pid = qid
  · subst hpid
    have hlt : pid < r.nextId := hqid ▸ (hwf p hmem).1
    have hany : (r.procs.any fun q => q.pid == pid) = true := by
      apply List.any_eq_true.mpr
      exact ⟨p, hmem, by simp [hqid]⟩
    simp [lifeStatus, hlt, hany, removeById_self, lifeTrace, isLifeEv,
      List.filter_cons]
  · have hbeq : (qid == pid) = false := by
      simp
      exact fun hc => hpid hc.symm
    have htr : lifeTrace pid [REv.shutdownEv qid, REv.destroyEv qid] = [] := by
      simp [lifeTrace, isLifeEv, List.filter_cons, hbeq]
    rw [htr, List.append_nil]
    simp [lifeStatus, removeById_any_pid r.procs qid pid hpid]

/-- One registry step preserves well-formedness and extends every identity's
lifecycle trace exactly as its registry status advances. -/
theorem stepReg_life (r : Registry) (c : RCmd) (hwf : RegWF r) :
    RegWF (stepReg r c).1 ∧
    ∀ pid, lifeStatus (stepReg r c).1 pid =
      lifeStatus r pid ++ lifeTrace pid (stepReg r c).2 := by
  cases c with
  | get n rie =>
    cases hf : findByName r n with
    | some p =>
      have hstep : stepReg r (RCmd.get n rie) =
          (⟨bumpRef r.procs n, r.nextId⟩, []) := by
        simp [stepReg, ast_taskprocessor_get, hf]
      rw [hstep]
      constructor
      · intro q hq
        obtain ⟨p1, hp1, h1, h2⟩ := mem_bumpRef hq
        obtain ⟨w1, w2⟩ := hwf p1 hp1
        exact ⟨h1 ▸ w1, h2 ▸ w2⟩
      · intro pid
        simp [lifeStatus, bumpRef_any_pid, lifeTrace_nil]
    | none =>
      cases rie with
      | true =>
        have hstep : stepReg r (RCmd.get n true) = (r, []) := by
          simp [stepReg, ast_taskprocessor_get, hf]
        rw [hstep]
        exact ⟨hwf, fun pid => by simp [lifeTrace_nil]⟩
      | false =>
        have hstep : stepReg r (RCmd.get n false) =
            (⟨r.procs ++ [mkProc r.nextId n defaultListener], r.nextId + 1⟩,
              [REv.allocEv r.nextId]) := by
          simp [stepReg, ast_taskprocessor_get, hf]
        rw [hstep]
        constructor
        · intro q hq
          rcases List.mem_append.mp hq with hq | hq
          · obtain ⟨w1, w2⟩ := hwf q hq
            exact ⟨Nat.lt_succ_of_lt w1, w2⟩
          · obtain rfl : q = mkProc r.nextId n defaultListener := by
              simpa using hq
            exact ⟨Nat.lt_succ_self _, rfl⟩
        · exact lifeStatus_create r defaultListener n
  | createWL n l =>
    cases hf : findByName r n with
    | some p =>
      have hstep : stepReg r (RCmd.createWL n l) = (r, []) := by
        simp [stepReg, ast_taskprocessor_create_with_listener, hf]
      rw [hstep]
      exact ⟨hwf, fun pid => by simp [lifeTrace_nil]⟩
    | none =>
      have hstep : stepReg r (RCmd.createWL n l) =
          (⟨r.procs ++ [mkProc r.nextId n l], r.nextId + 1⟩,
            [REv.allocEv r.nextId]) := by
        simp [stepReg, ast_taskprocessor_create_with_listener, hf]
      rw [hstep]
      constructor
      · intro q hq
        rcases List.mem_append.mp hq with hq | hq
        · obtain ⟨w1, w2⟩ := hwf q hq
          exact ⟨Nat.lt_succ_of_lt w1, w2⟩
        · obtain rfl : q = mkProc r.nextId n l := by simpa using hq
          exact ⟨Nat.lt_succ_self _, rfl⟩
      · exact lifeStatus_create r l n
  | unref qid =>
    cases hf : findById r qid with
    | none =>
      have hstep : stepReg r (RCmd.unref qid) = (r, []) := by
        simp [stepReg, ast_taskprocessor_unreference, hf]
      rw [hstep]
      exact ⟨hwf, fun pid => by simp [lifeTrace_nil]⟩
    | some p =>
      have hmem : p ∈ r.procs := List.mem_of_find?_eq_some hf
      have hqid : p.pid = qid := by
        have := List.find?_some hf
        simpa using this
      by_cases hrc : p.refCount ≤ 1
      · have hstep : stepReg r (RCmd.unref qid) =
            (⟨removeById r.procs qid, r.nextId⟩,
              [REv.shutdownEv qid, REv.destroyEv qid]) := by
          simp [stepReg, ast_taskprocessor_unreference, hf, hrc]
        rw [hstep]
        constructor
        · intro q hq
          obtain ⟨h1, _⟩ := mem_removeById hq
          exact hwf q h1
        · exact lifeStatus_unref_final r qid p hwf hmem hqid
      · have hstep : stepReg r (RCmd.unref qid) =
            (⟨decRef r.procs qid, r.nextId⟩, []) := by
          simp [stepReg, ast_taskprocessor_unreference, hf, hrc]
        rw [hstep]
        constructor
        · intro q hq
          obtain ⟨p1, hp1, h1, h2⟩ := mem_decRef hq
          obtain ⟨w1, w2⟩ := hwf p1 hp1
          exact ⟨h1 ▸ w1, h2 ▸ w2⟩
        · intro pid
          simp [lifeStatus, decRef_any_pid, lifeTrace_nil]
  | push qid t =>
    cases hf : findById r qid with
    | none =>
      have hstep : stepReg r (RCmd.push qid t) = (r, []) := by
        simp [stepReg, registryPush, hf]
      rw [hstep]
      exact ⟨hwf, fun pid => by simp [lifeTrace_nil]⟩
    | some p =>
      cases hp : ast_taskprocessor_push p.st t with
      | error e =>
        have hstep : stepReg r (RCmd.push qid t) = (r, []) := by
          simp [stepReg, registryPush, hf, hp]
        rw [hstep]
        exact ⟨hwf, fun pid => by simp [lifeTrace_nil]⟩
      | ok res =>
        have hstep : stepReg r (RCmd.push qid t) =
            (⟨updateProcSt r.procs qid res.1, r.nextId⟩,
              res.2.map (REv.tpsEv qid)) := by
          simp [stepReg, registryPush, hf, hp]
        rw [hstep]
        constructor
        · intro q hq
          obtain ⟨p1, hp1, h1, h2⟩ := mem_updateProcSt hq
          obtain ⟨w1, w2⟩ := hwf p1 hp1
          refine ⟨h1 ▸ w1, ?_⟩
          rcases h2 with h2 | h2
          · exact h2 ▸ w2
          · rw [h2]
            exact (push_ok_inv (by rw [hp])).2
        · intro pid
          simp [lifeStatus, updateProcSt_any_pid, lifeTrace_tpsEv]
  | exec qid =>
    cases hf : findById r qid with
    | none =>
      have hstep : stepReg r (RCmd.exec qid) = (r, []) := by
        simp [stepReg, registryExec, hf]
      rw [hstep]
      exact ⟨hwf, fun pid => by simp [lifeTrace_nil]⟩
    | some p =>
      have hmem' : p ∈ r.procs := List.mem_of_find?_eq_some hf
      have hstep : stepReg r (RCmd.exec qid) =
          (⟨updateProcSt r.procs qid (ast_taskprocessor_execute p.st).1,
              r.nextId⟩,
            (ast_taskprocessor_execute p.st).2.2.map (REv.tpsEv qid)) := by
        simp [stepReg, registryExec, hf]
      rw [hstep]
      constructor
      · intro q hq
        obtain ⟨p1, hp1, h1, h2⟩ := mem_updateProcSt hq
        obtain ⟨w1, w2⟩ := hwf p1 hp1
        refine ⟨h1 ▸ w1, ?_⟩
        rcases h2 with h2 | h2
        · exact h2 ▸ w2
        · rw [h2, execute_alive]
          exact (hwf p hmem').2
      · intro pid
        simp [lifeStatus, updateProcSt_any_pid, lifeTrace_tpsEv]

/-- The run-level lifecycle invariant: from a well-formed registry, the run
stays well-formed and each identity's lifecycle trace over the run is
exactly the advance of its registry status. -/
theorem runReg_life (cs : List RCmd) (r : Registry) (hwf : RegWF r) :
    RegWF (runReg r cs).1 ∧
    ∀ pid, lifeStatus (runReg r cs).1 pid =
      lifeStatus r pid ++ lifeTrace pid (runReg r cs).2 := by
  induction cs generalizing r with
  | nil => exact ⟨hwf, fun pid => by simp [runReg, lifeTrace_nil]⟩
  | cons c cs ih =>
    obtain ⟨w1, h1⟩ := stepReg_life r c hwf
    obtain ⟨w2, h2⟩ := ih (stepReg r c).1 w1
    refine ⟨by simpa [runReg] using w2, fun pid => ?_⟩
    simp only [runReg]
    rw [lifeTrace_append, h2 pid, h1 pid, List.append_assoc]

/-- One registry step neither revives a destroyed identity nor emits any
event on its behalf. -/
theorem stepReg_dead (r : Registry) (c : RCmd) (pid : Nat)
    (hlt : pid < r.nextId)
    (habs : (r.procs.any fun p => p.pid == pid) = false) :
    pid < (stepReg r c).1.nextId ∧
    ((stepReg r c).1.procs.any fun p => p.pid == pid) = false ∧
    ∀ e ∈ (stepReg r c).2, evPid e ≠ pid := by
  have hnotmem : ∀ p ∈ r.procs, p.pid ≠ pid := by
    intro p hp hc
    have : (r.procs.any fun p => p.pid == pid) = true :=
      List.any_eq_true.mpr ⟨p, hp, by simp [hc]⟩
    rw [habs] at this
    cases this
  have hnext : (r.nextId == pid) = false := by
    simp
    intro hc
    rw [hc] at hlt
    exact lt_irrefl pid hlt
  have hnextne : r.nextId ≠ pid := by simpa using hnext
  cases c with
  | get n rie =>
    cases hf : findByName r n with
    | some p =>
      have hstep : stepReg r (RCmd.get n rie) =
          (⟨bumpRef r.procs n, r.nextId⟩, []) := by
        simp [stepReg, ast_taskprocessor_get, hf]
      rw [hstep]
      exact ⟨hlt, by rw [bumpRef_any_pid]; exact habs, by simp⟩
    | none =>
      cases rie with
      | true =>
        have hstep : stepReg r (RCmd.get n true) = (r, []) := by
          simp [stepReg, ast_taskprocessor_get, hf]
        rw [hstep]
        exact ⟨hlt, habs, by simp⟩
      | false =>
        have hstep : stepReg r (RCmd.get n false) =
            (⟨r.procs ++ [mkProc r.nextId n defaultListener], r.nextId + 1⟩,
              [REv.allocEv r.nextId]) := by
          simp [stepReg, ast_taskprocessor_get, hf]
        rw [hstep]
        refine ⟨Nat.lt_succ_of_lt hlt, ?_, ?_⟩
        · simp [List.any_append, mkProc, hnext, habs]
        · intro e he
          obtain rfl : e = REv.allocEv r.nextId := by simpa using he
          simpa [evPid] using hnextne
  | createWL n l =>
    cases hf : findByName r n with
    | some p =>
      have hstep : stepReg r (RCmd.createWL n l) = (r, []) := by
        simp [stepReg, ast_taskprocessor_create_with_listener, hf]
      rw [hstep]
      exact ⟨hlt, habs, by simp⟩
    | none =>
      have hstep : stepReg r (RCmd.createWL n l) =
          (⟨r.procs ++ [mkProc r.nextId n l], r.nextId + 1⟩,
            [REv.allocEv r.nextId]) := by
        simp [stepReg, ast_taskprocessor_create_with_listener, hf]
      rw [hstep]
      refine ⟨Nat.lt_succ_of_lt hlt, ?_, ?_⟩
      · simp [List.any_append, mkProc, hnext, habs]
      · intro e he
        obtain rfl : e = REv.allocEv r.nextId := by simpa using he
        simpa [evPid] using hnextne
  | unref qid =>
    cases hf : findById r qid with
    | none =>
      have hstep : stepReg r (RCmd.unref qid) = (r, []) := by
        simp [stepReg, ast_taskprocessor_unreference, hf]
      rw [hstep]
      exact ⟨hlt, habs, by simp⟩
    | some p =>
      have hqid : p.pid = qid := by
        have := List.find?_some hf
        simpa using this
      have hqne : qid ≠ pid := by
        intro hc
        exact hnotmem p (List.mem_of_find?_eq_some hf) (hqid.trans hc)
      by_cases hrc : p.refCount ≤ 1
      · have hstep : stepReg r (RCmd.unref qid) =
            (⟨removeById r.procs qid, r.nextId⟩,
              [REv.shutdownEv qid, REv.destroyEv qid]) := by
          simp [stepReg, ast_taskprocessor_unreference, hf, hrc]
        rw [hstep]
        refine ⟨hlt, ?_, ?_⟩
        · rw [removeById_any_pid r.procs qid pid (fun hc => hqne hc.symm)]
          exact habs
        · intro e he
          rcases List.mem_cons.mp he with rfl | he
          · simpa [evPid] using hqne
          · obtain rfl : e = REv.destroyEv qid := by simpa using he
            simpa [evPid] using hqne
      · have hstep : stepReg r (RCmd.unref qid) =
            (⟨decRef r.procs qid, r.nextId⟩, []) := by
          simp [stepReg, ast_taskprocessor_unreference, hf, hrc]
        rw [hstep]
        exact ⟨hlt, by rw [decRef_any_pid]; exact habs, by simp⟩
  | push qid t =>
    cases hf : findById r qid with
    | none =>
      have hstep : stepReg r (RCmd.push qid t) = (r, []) := by
        simp [stepReg, registryPush, hf]
      rw [hstep]
      exact ⟨hlt, habs, by simp⟩
    | some p =>
      have hqid : p.pid = qid := by
        have := List.find?_some hf
        simpa using this
      have hqne : qid ≠ pid := by
        intro hc
        exact hnotmem p (List.mem_of_find?_eq_some hf) (hqid.trans hc)
      cases hp : ast_taskprocessor_push p.st t with
      | error e =>
        have hstep : stepReg r (RCmd.push qid t) = (r, []) := by
          simp [stepReg, registryPush, hf, hp]
        rw [hstep]
        exact ⟨hlt, habs, by simp⟩
      | ok res =>
        have hstep : stepReg r (RCmd.push qid t) =
            (⟨updateProcSt r.procs qid res.1, r.nextId⟩,
              res.2.map (REv.tpsEv qid)) := by
          simp [stepReg, registryPush, hf, hp]
        rw [hstep]
        refine ⟨hlt, by rw [updateProcSt_any_pid]; exact habs, ?_⟩
        intro e he
        obtain ⟨e1, _, rfl⟩ := List.mem_map.mp he
        simpa [evPid] using hqne
  | exec qid =>
    cases hf : findById r qid with
    | none =>
      have hstep : stepReg r (RCmd.exec qid) = (r, []) := by
        simp [stepReg, registryExec, hf]
      rw [hstep]
      exact ⟨hlt, habs, by simp⟩
    | some p =>
      have hqid : p.pid = qid := by
        have := List.find?_some hf
        simpa using this
      have hqne : qid ≠ pid := by
        intro hc
        exact hnotmem p (List.mem_of_find?_eq_some hf) (hqid.trans hc)
      have hstep : stepReg r (RCmd.exec qid) =
          (⟨updateProcSt r.procs qid (ast_taskprocessor_execute p.st).1,
              r.nextId⟩,
            (ast_taskprocessor_execute p.st).2.2.map (REv.tpsEv qid)) := by
        simp [stepReg, registryExec, hf]
      rw [hstep]
      refine ⟨hlt, by rw [updateProcSt_any_pid]; exact habs, ?_⟩
      intro e he
      obtain ⟨e1, _, rfl⟩ := List.mem_map.mp he
      simpa [evPid] using hqne

/-- Once an identity has been destroyed, no later command emits any event on
its behalf. -/
theorem runReg_dead (cs : List RCmd) (r : Registry) (pid : Nat)
    (hlt : pid < r.nextId)
    (habs : (r.procs.any fun p => p.pid == pid) = false) :
    ∀ e ∈ (runReg r cs).2, evPid e ≠ pid := by
  induction cs generalizing r with
  | nil => simp [runReg]
  | cons c cs ih =>
    obtain ⟨d1, d2, d3⟩ := stepReg_dead r c pid hlt habs
    intro e he
    simp only [runReg] at he
    rcases List.mem_append.mp he with he | he
    · exact d3 e he
    · exact ih (stepReg r c).1 d1 d2 e he

/-! ### Claims C3 and C5: shutdown and the exactly-once lifecycle -/

/-- C3: the final unreference (reference count 1, i.e. the decrement reaches
zero) removes the processor from the registry and leaves it not alive, fires
exactly `shutdown` followed by `destroy` — in particular no handler runs for
the tasks still queued, which are discarded — and after it returns no later
command produces any handler run or listener callback for that processor. -/
theorem claim_C3 (r : Registry) (pid : Nat) (p : Proc) (cs : List RCmd)
    (hwf : RegWF r) (hfind : findById r pid = some p)
    (hone : p.refCount = 1) :
    ((ast_taskprocessor_unreference r pid).1.procs.any
      fun q => q.pid == pid) = false ∧
    aliveInReg (ast_taskprocessor_unreference r pid).1 pid = false ∧
    (ast_taskprocessor_unreference r pid).2.2 =
      [REv.shutdownEv pid, REv.destroyEv pid] ∧
    ∀ e ∈ (runReg (ast_taskprocessor_unreference r pid).1 cs).2,
      evPid e ≠ pid := by
  have hrc : p.refCount ≤ 1 := le_of_eq hone
  have hu : ast_taskprocessor_unreference r pid =
      (⟨removeById r.procs pid, r.nextId⟩, none,
        [REv.shutdownEv pid, REv.destroyEv pid]) := by
    simp [ast_taskprocessor_unreference, hfind, hrc]
  have habs : ((removeById r.procs pid).any fun q => q.pid == pid) = false :=
    removeById_self r.procs pid
  have hltpid : pid < r.nextId := by
    have hmem := List.mem_of_find?_eq_some hfind
    have hqid : p.pid = pid := by simpa using List.find?_some hfind
    exact hqid ▸ (hwf p hmem).1
  rw [hu]
  dsimp only
  refine ⟨habs, ?_, rfl, ?_⟩
  · cases hA : aliveInReg ⟨removeById r.procs pid, r.nextId⟩ pid with
    | false => rfl
    | true =>
      obtain ⟨q, hq, hqq⟩ := List.any_eq_true.mp hA
      simp only [Bool.and_eq_true] at hqq
      have h1 : (q.pid == pid) = true := hqq.1
      have : ((removeById r.procs pid).any fun q => q.pid == pid) = true :=
        List.any_eq_true.mpr ⟨q, hq, h1⟩
      rw [habs] at this
      cases this
  · exact runReg_dead cs ⟨removeById r.procs pid, r.nextId⟩ pid hltpid habs

theorem claim_C3_witness :
    ((ast_taskprocessor_unreference
        ⟨[mkProc 0 "F" defaultListener], 1⟩ 0).1.procs.any
      fun q => q.pid == 0) = false ∧
    aliveInReg (ast_taskprocessor_unreference
        ⟨[mkProc 0 "F" defaultListener], 1⟩ 0).1 0 = false ∧
    (ast_taskprocessor_unreference
        ⟨[mkProc 0 "F" defaultListener], 1⟩ 0).2.2 =
      [REv.shutdownEv 0, REv.destroyEv 0] := by
  obtain ⟨h1, h2, h3, _⟩ := claim_C3 ⟨[mkProc 0 "F" defaultListener], 1⟩ 0
    (mkProc 0 "F" defaultListener)
    [RCmd.push 0 (Task.mk 1 2 []), RCmd.exec 0]
    (by
      intro p hp
      obtain rfl : p = mkProc 0 "F" defaultListener := by simpa using hp
      exact ⟨Nat.lt_succ_self 0, rfl⟩)
    rfl rfl
  exact ⟨h1, h2, h3⟩

/-- C5: over a full lifetime — any command sequence from the empty registry
after which the identity has been created (`pid < nextId`) and destroyed
(absent from the registry) — the lifecycle trace of that processor and its
bound listener is exactly `alloc` then `shutdown` then `destroy`: each fires
exactly once and `destroy` strictly follows `shutdown`. -/
theorem claim_C5 (cs : List RCmd) (pid : Nat)
    (hcreated : pid < (runReg initRegistry cs).1.nextId)
    (hdead : ((runReg initRegistry cs).1.procs.any
      fun p => p.pid == pid) = false) :
    lifeTrace pid (runReg initRegistry cs).2 =
      [REv.allocEv pid, REv.shutdownEv pid, REv.destroyEv pid] := by
  have hwf0 : RegWF initRegistry := by
    intro p hp
    simp [initRegistry] at hp
  obtain ⟨_, h⟩ := runReg_life cs initRegistry hwf0
  have h0 : lifeStatus initRegistry pid = [] := by
    simp [lifeStatus, initRegistry]
  have hp := h pid
  rw [h0, List.nil_append] at hp
  rw [← hp]
  simp [lifeStatus, hcreated, hdead]

theorem claim_C5_witness :
    lifeTrace 0 (runReg initRegistry [RCmd.get "A" false, RCmd.unref 0]).2 =
      [REv.allocEv 0, REv.shutdownEv 0, REv.destroyEv 0] :=
  claim_C5 [RCmd.get "A" false, RCmd.unref 0] 0 (by decide) (by decide)

end Taskprocessor

namespace Dsp

/-! ### The dsp threshold loader (`main/dsp.c`)

`_dsp_init` loads `dsp.conf` and installs the `silencethreshold` value from
its `default` section into the static `thresholds` array; the getter
`ast_dsp_get_threshold_from_settings` reads that array.  The configuration
subsystem (`ast_config_load2` / `ast_variable_browse`) is external to the
repository, so its result is modelled as a value: unchanged, missing,
invalid, or a loaded list of name/value pairs in browse order. -/

/-- The `enum threshold` indices used by `dsp.c` (only `THRESHOLD_SILENCE`
is ever written by this file). -/
inductive Threshold where
  | silence
  deriving DecidableEq

/-- `static const int DEFAULT_SILENCE_THRESHOLD = 256;` -/
def DEFAULT_SILENCE_THRESHOLD : Int := 256

/-- The outcome of `ast_config_load2(CONFIG_FILE_NAME, "dsp", config_flags)`
followed by `ast_variable_browse(cfg, "default")`: the sentinels
`CONFIG_STATUS_FILEUNCHANGED` / `FILEMISSING` / `FILEINVALID`, or the
variables of the `default` section in browse order. -/
inductive ConfigLoadResult where
  | fileUnchanged
  | fileMissing
  | fileInvalid
  | loaded (vars : List (String × String))

/-- C `isspace` on the characters `sscanf` skips before `%d`. -/
def isSpaceC (c : Char) : Bool :=
  c == ' ' || c == '\t' || c == '\n' || c == '\x0b' || c == '\x0c' || c == '\r'

def digitsVal (ds : List Char) : Nat :=
  ds.foldl (fun a c => a * 10 + (c.toNat - 48)) 0

/-- `sscanf(value, "%30d", &cfg_threshold)`: skip leading whitespace, read at
most 30 characters of an optionally signed decimal number; the scan succeeds
(returns 1) exactly when at least one digit is consumed. -/
def sscanf_d30 (s : String) : Option Int :=
  let cs := (s.toList.dropWhile isSpaceC).take 30
  match cs with
  | '-' :: r =>
    let ds := r.takeWhile Char.isDigit
    if ds.isEmpty then none else some (-(digitsVal ds : Int))
  | '+' :: r =>
    let ds := r.takeWhile Char.isDigit
    if ds.isEmpty then none else some ((digitsVal ds : Int))
  | r =>
    let ds := r.takeWhile Char.isDigit
    if ds.isEmpty then none else some ((digitsVal ds : Int))

def lowerC (c : Char) : Char :=
  if 'A' ≤ c && c ≤ 'Z' then Char.ofNat (c.toNat + 32) else c

/-- `!strcasecmp(a, b)`: ASCII case-insensitive string equality. -/
def strcaseeq (a b : String) : Bool :=
  a.toList.map lowerC == b.toList.map lowerC

/-- One iteration of the `ast_variable_browse` loop of `_dsp_init`: a
`silencethreshold` variable whose value scans as a non-negative integer
overwrites the pending threshold; an unparsable or negative value only logs
a warning and leaves it alone. -/
def applyVar (acc : Int) (v : String × String) : Int :=
  if strcaseeq v.1 "silencethreshold" then
    match sscanf_d30 v.2 with
    | none => acc
    | some k => if k < 0 then acc else k
  else acc

/-- The static `thresholds` array (zero-initialized before the first load). -/
def thresholds0 : Threshold → Int := fun _ => 0

def setSilence (st : Threshold → Int) (v : Int) : Threshold → Int :=
  fun w => match w with | .silence => v

/-- `_dsp_init`: on `CONFIG_STATUS_FILEUNCHANGED` return immediately, leaving
the array as is; otherwise install the default, return early on a missing or
invalid file, and otherwise fold the `default`-section variables. -/
def dsp_init (st : Threshold → Int) (cfg : ConfigLoadResult) :
    Threshold → Int :=
  match cfg with
  | .fileUnchanged => st
  | .fileMissing => setSilence st DEFAULT_SILENCE_THRESHOLD
  | .fileInvalid => setSilence st DEFAULT_SILENCE_THRESHOLD
  | .loaded vars => setSilence st (vars.foldl applyVar DEFAULT_SILENCE_THRESHOLD)

/-- `ast_dsp_get_threshold_from_settings(which)`: read the array. -/
def ast_dsp_get_threshold_from_settings (st : Threshold → Int)
    (which : Threshold) : Int :=
  st which

/-- A module lifetime: `load_module` runs `_dsp_init(0)` (whose load can
never report `FILEUNCHANGED`, as no `CONFIG_FLAG_FILEUNCHANGED` flag is
passed), then each `reload_module` runs `_dsp_init(1)`. -/
def dsp_module_run (initCfg : ConfigLoadResult)
    (reloads : List ConfigLoadResult) : Threshold → Int :=
  reloads.foldl dsp_init (dsp_init thresholds0 initCfg)

theorem foldl_applyVar_nonneg (vars : List (String × String)) (acc : Int)
    (h : 0 ≤ acc) : 0 ≤ vars.foldl applyVar acc := by
  induction vars generalizing acc with
  | nil => exact h
  | cons v vs ih =>
    apply ih
    unfold applyVar
    by_cases hn : strcaseeq v.1 "silencethreshold" = true
    · rw [if_pos hn]
      cases hs : sscanf_d30 v.2 with
      | none => exact h
      | some k =>
        dsimp only
        by_cases hk : k < 0
        · rw [if_pos hk]
          exact h
        · rw [if_neg hk]
          exact le_of_not_lt hk
    · rw [if_neg hn]
      exact h

theorem dsp_init_nonneg (st : Threshold → Int) (cfg : ConfigLoadResult)
    (hcfg : cfg ≠ ConfigLoadResult.fileUnchanged) :
    0 ≤ dsp_init st cfg Threshold.silence := by
  cases cfg with
  | fileUnchanged => exact absurd rfl hcfg
  | fileMissing => norm_num [dsp_init, setSilence, DEFAULT_SILENCE_THRESHOLD]
  | fileInvalid => norm_num [dsp_init, setSilence, DEFAULT_SILENCE_THRESHOLD]
  | loaded vars =>
    show 0 ≤ vars.foldl applyVar DEFAULT_SILENCE_THRESHOLD
    exact foldl_applyVar_nonneg vars _ (by norm_num [DEFAULT_SILENCE_THRESHOLD])

theorem dsp_init_preserves_nonneg (st : Threshold → Int)
    (cfg : ConfigLoadResult) (h : 0 ≤ st Threshold.silence) :
    0 ≤ dsp_init st cfg Threshold.silence := by
  cases cfg with
  | fileUnchanged => exact h
  | fileMissing => exact dsp_init_nonneg st _ (by intro hc; cases hc)
  | fileInvalid => exact dsp_init_nonneg st _ (by intro hc; cases hc)
  | loaded vars => exact dsp_init_nonneg st _ (by intro hc; cases hc)

/-- C10: after any completed dsp module load or reload sequence, the silence
threshold returned by `ast_dsp_get_threshold_from_settings(THRESHOLD_SILENCE)`
is non-negative; a load whose `default` section configures
`silencethreshold` installs the configured value exactly when it scans as a
non-negative integer and the default 256 otherwise; a missing or invalid
config file installs the default 256; an unchanged file leaves the
thresholds untouched. -/
theorem claim_C10 (initCfg : ConfigLoadResult)
    (reloads : List ConfigLoadResult)
    (hinit : initCfg ≠ ConfigLoadResult.fileUnchanged) :
    0 ≤ ast_dsp_get_threshold_from_settings
        (dsp_module_run initCfg reloads) Threshold.silence ∧
    (∀ st n v, strcaseeq n "silencethreshold" = true →
      ast_dsp_get_threshold_from_settings
          (dsp_init st (ConfigLoadResult.loaded [(n, v)])) Threshold.silence =
        (match sscanf_d30 v with
         | some k => if 0 ≤ k then k else DEFAULT_SILENCE_THRESHOLD
         | none => DEFAULT_SILENCE_THRESHOLD)) ∧
    (∀ st, ast_dsp_get_threshold_from_settings
        (dsp_init st ConfigLoadResult.fileMissing) Threshold.silence =
      DEFAULT_SILENCE_THRESHOLD) ∧
    (∀ st, ast_dsp_get_threshold_from_settings
        (dsp_init st ConfigLoadResult.fileInvalid) Threshold.silence =
      DEFAULT_SILENCE_THRESHOLD) ∧
    (∀ st, dsp_init st ConfigLoadResult.fileUnchanged = st) := by
  refine ⟨?_, ?_, fun st => rfl, fun st => rfl, fun st => rfl⟩
  · show 0 ≤ dsp_module_run initCfg reloads Threshold.silence
    unfold dsp_module_run
    have h0 : 0 ≤ dsp_init thresholds0 initCfg Threshold.silence :=
      dsp_init_nonneg thresholds0 initCfg hinit
    generalize dsp_init thresholds0 initCfg = st at h0 ⊢
    induction reloads generalizing st with
    | nil => exact h0
    | cons c cs ih =>
      exact ih (dsp_init st c) (dsp_init_preserves_nonneg st c h0)
  · intro st n v hn
    show List.foldl applyVar DEFAULT_SILENCE_THRESHOLD [(n, v)] = _
    simp only [List.foldl_cons, List.foldl_nil, applyVar, hn, if_true]
    cases hs : sscanf_d30 v with
    | none => rfl
    | some k =>
      dsimp only
      by_cases hk : k < 0
      · rw [if_pos hk, if_neg (not_le.mpr hk)]
      · rw [if_neg hk, if_pos (not_lt.mp hk)]

theorem claim_C10_witness :
    0 ≤ ast_dsp_get_threshold_from_settings
        (dsp_module_run (ConfigLoadResult.loaded
          [("SilenceThreshold", "300")]) [ConfigLoadResult.fileUnchanged])
        Threshold.silence ∧
    ast_dsp_get_threshold_from_settings
        (dsp_init thresholds0 (ConfigLoadResult.loaded
          [("silencethreshold", "-5")])) Threshold.silence =
      DEFAULT_SILENCE_THRESHOLD := by
  constructor
  · exact (claim_C10 (ConfigLoadResult.loaded [("SilenceThreshold", "300")])
      [ConfigLoadResult.fileUnchanged]
      (fun h => ConfigLoadResult.noConfusion h)).1
  · have h := ((claim_C10 (ConfigLoadResult.loaded [("SilenceThreshold", "300")])
      [] (fun h => ConfigLoadResult.noConfusion h)).2.1 thresholds0
      "silencethreshold" "-5" (by decide))
    rw [h]
    decide

end Dsp
